import Mathlib

/-!
Verification of the Cloudinary bulk image uploader.

This file gives a shallow embedding, in Lean, of the JavaScript sources of the
Cloudinary-Image-Uploader repository (src/uploader.js, src/async_filter.js,
src/image_validation.js, src/errors/*), and proves or refutes the stated
properties of the design document against that embedding.

Conventions used throughout:
- pure JavaScript functions become Lean functions on `Nat`/`String`/`List`;
- promise-based code that can reject becomes `Except`-valued functions
  (`Except.error` models a rejected promise);
- the event-loop concurrency of the worker pool and of the pending-log-write
  counter is modelled as an explicit small-step transition function over
  traces of atomic events (atomic = a synchronous slice of JavaScript code,
  which the single-threaded event loop never interleaves);
- JavaScript runtime failures that the source can actually hit (a member
  access on `undefined`, a reference to an undeclared identifier) are modelled
  explicitly as error values, since they decide several claims.
-/

/- ===================================================================
   Section 1: constants of src/uploader.js
   =================================================================== -/

/-- Maximum number of concurrent upload requests allowed by Cloudinary
(`MAX_CONCURRENT_UPLOADS` in src/uploader.js). -/
def MAX_CONCURRENT_UPLOADS : Nat := 10

/-- File chunk upload size in bytes (`CHUNK_UPLOAD_SIZE` in src/uploader.js),
used as the `highWaterMark` of the read stream in `chunkUpload`. -/
def CHUNK_UPLOAD_SIZE : Nat := 5000000

/- ===================================================================
   Section 2: chunk splitting and byte ranges (Uploader.chunkUpload)
   =================================================================== -/

/-- Sizes of the chunks a readable stream with `highWaterMark = chunkSize`
delivers for a file of `totalSize` bytes: full `chunkSize` pieces followed by
the remainder.  This is the sequence of `chunk.byteLength` values seen by the
`data` handler of `chunkUpload` in src/uploader.js. -/
def streamChunks (totalSize chunkSize : Nat) : List Nat :=
  if chunkSize = 0 then []
  else if totalSize = 0 then []
  else if totalSize ≤ chunkSize then [totalSize]
  else chunkSize :: streamChunks (totalSize - chunkSize) chunkSize
termination_by totalSize
decreasing_by omega

/-- Byte ranges computed by the `data` handler of `chunkUpload`:
`start = end; end += chunk.byteLength` — each range is `[start, end)` with
`start` equal to the accumulated size of the previous chunks. -/
def chunkRanges : List Nat → Nat → List (Nat × Nat)
  | [], _ => []
  | c :: rest, start => (start, start + c) :: chunkRanges rest (start + c)

/-- The `Content-Range` header text built by `chunkUpload`:
`"bytes " + start + "-" + (end - 1) + "/" + fileSize`. -/
def contentRangeHeader (start endPos total : Nat) : String :=
  "bytes " ++ toString start ++ "-" ++ toString (endPos - 1) ++ "/" ++ toString total

/-- The sequence of `Content-Range` headers of the requests `chunkUpload`
issues for a file of `totalSize` bytes (one `axios.post` per `data` event). -/
def chunkRequests (totalSize chunkSize : Nat) : List String :=
  (chunkRanges (streamChunks totalSize chunkSize) 0).map
    (fun r => contentRangeHeader r.1 r.2 totalSize)

/-- Full statement of the chunk-coverage property of `chunkUpload` for a file
of `totalSize` bytes read with the given stream chunk size. -/
def ChunkSpec (totalSize chunkSize : Nat) : Prop :=
  (chunkRequests totalSize chunkSize).length =
      (streamChunks totalSize chunkSize).length ∧
  chunkRequests totalSize chunkSize =
      (chunkRanges (streamChunks totalSize chunkSize) 0).map
        (fun r => contentRangeHeader r.1 r.2 totalSize) ∧
  (∀ b, (∃ r ∈ chunkRanges (streamChunks totalSize chunkSize) 0,
      r.1 ≤ b ∧ b < r.2) ↔ b < totalSize) ∧
  (chunkRanges (streamChunks totalSize chunkSize) 0).Chain'
      (fun r₁ r₂ => r₁.2 = r₂.1) ∧
  (chunkRanges (streamChunks totalSize chunkSize) 0).Pairwise
      (fun r₁ r₂ => r₁.2 ≤ r₂.1) ∧
  (∀ r ∈ chunkRanges (streamChunks totalSize chunkSize) 0, r.1 < r.2) ∧
  (0 < totalSize →
    ∃ a, (chunkRanges (streamChunks totalSize chunkSize) 0).getLast? =
      some (a, totalSize)) ∧
  (0 < totalSize →
    (chunkRanges (streamChunks totalSize chunkSize) 0).head?.map Prod.fst =
      some 0)

/- ===================================================================
   Section 3: classified errors (src/errors/*) and the escalation
   policy CloudinaryUploader.#isCriticalError (src/async_filter.js)
   =================================================================== -/

/-- Tagged model of the error class hierarchy of src/errors: `FileOpenError`,
`FileUploadError`, `ServerResponseError` (a subclass of `FileUploadError`
carrying an HTTP status), plus a case for any other thrown value (the code's
"unrecognized" errors). -/
inductive UploadError
  | fileOpen (message pathname : String)
  | fileUpload (message pathname : String)
  | serverResponse (message pathname : String) (httpCode : Nat)
  | unrecognized (message : String)
deriving DecidableEq, Repr

/-- The `toString` methods of the error classes: `FileOpenError` overrides
with a "Failed to open" text, `FileUploadError` with "Failed to upload";
`ServerResponseError` inherits the latter. -/
def UploadError.jsToString : UploadError → String
  | .fileOpen m p => "Failed to open \"" ++ p ++ "\": " ++ m
  | .fileUpload m p => "Failed to upload \"" ++ p ++ "\": " ++ m
  | .serverResponse m p _ => "Failed to upload \"" ++ p ++ "\": " ++ m
  | .unrecognized m => m

/-- Status codes imported from http-status-codes in src/async_filter.js. -/
def BAD_REQUEST : Nat := 400

/-- HTTP 404, as imported from http-status-codes. -/
def NOT_FOUND : Nat := 404

/-- HTTP 409, as imported from http-status-codes. -/
def CONFLICT : Nat := 409

/-- Model of `CloudinaryUploader.#isCriticalError`: `FileOpenError` is never
critical; a `ServerResponseError` whose status is 400, 404 or 409 is not
critical (the `switch` returns false); every other error falls through to
`return true`. -/
def isCriticalError (error : UploadError) : Bool :=
  match error with
  | .fileOpen _ _ => false
  | .serverResponse _ _ httpCode =>
      if httpCode = BAD_REQUEST then false
      else if httpCode = NOT_FOUND then false
      else if httpCode = CONFLICT then false
      else true
  | _ => true

/- ===================================================================
   Section 4: terminal outcome of Uploader.chunkUpload (src/uploader.js)
   =================================================================== -/

/-- Result of one chunk's `axios.post`, as seen by the `.then`/`.catch`
handlers in `chunkUpload`: fulfilled with a response body, rejected with an
`error.response` carrying a status, or rejected with no response (network
failure, timeout, abort). -/
inductive ChunkResp
  | ok (data : String)
  | errWithResponse (message : String) (status : Nat)
  | errNoResponse (message : String)
deriving DecidableEq, Repr

/-- Terminal settlement of the promise returned by `chunkUpload`. -/
inductive ChunkOutcome
  | success (data : String)
  | failure (e : UploadError)
deriving DecidableEq, Repr

/-- Accessibility of the local file: the read stream either emits `error`
before any data (the file cannot be opened), or delivers a list of chunks,
each with the result of its upload request. -/
inductive FileAccess
  | unreadable (message : String)
  | readable (chunks : List (Nat × ChunkResp))
deriving DecidableEq, Repr

/-- First settlement of the `chunkUpload` promise over the chunk sequence,
under the schedule in which each chunk's request settles before the next is
considered: a rejected request settles the promise with `ServerResponseError`
(response present) or `FileUploadError` (no response); a fulfilled request
resolves it only when the accumulated `end` offset has reached the file size.
If the list is exhausted with no settlement the promise stays pending
(`none`). -/
def settleChunks (pathname : String) (total : Nat) :
    Nat → List (Nat × ChunkResp) → Option ChunkOutcome
  | _, [] => none
  | endSoFar, (sz, r) :: rest =>
    match r with
    | .errWithResponse msg status =>
        some (.failure (.serverResponse msg pathname status))
    | .errNoResponse msg => some (.failure (.fileUpload msg pathname))
    | .ok data =>
        if total ≤ endSoFar + sz then some (.success data)
        else settleChunks pathname total (endSoFar + sz) rest

/-- Observable settlement of `chunkUpload url`: `FileOpenError` when the
stream errors, otherwise the first settlement over the data events.  `none`
means the promise never settles. -/
def chunkUploadOutcome (pathname : String) : FileAccess → Option ChunkOutcome
  | .unreadable msg => some (.failure (.fileOpen msg pathname))
  | .readable chunks =>
      settleChunks pathname (chunks.map Prod.fst).sum 0 chunks

/- ===================================================================
   Section 5: the per-file completion callback of CloudinaryUploader.upload
   (src/async_filter.js)
   =================================================================== -/

/-- JavaScript values that flow through notifications: the success payload is
the parsed response body or `null`; error payloads are an error object or a
message string. -/
inductive JSValue
  | null
  | str (s : String)
  | errObj (e : UploadError)
  | respData (data : String)
deriving DecidableEq, Repr

/-- The three events a `CloudinaryUploader` emits: `UPLOAD_SUCCESS`,
`UPLOAD_ERROR` and `UPLOAD_CRITICAL`, each carrying the file URL and a
payload. -/
inductive Notification
  | uploadSuccess (fileURL : String) (payload : JSValue)
  | uploadError (fileURL : String) (payload : JSValue)
  | uploadCritical (fileURL : String) (payload : JSValue)
deriving DecidableEq, Repr

/-- Effects of one invocation of the `bulkUpload` callback in
`CloudinaryUploader.upload`: the notifications emitted, the log entries
enqueued, and the state of the abort flag afterwards. -/
structure CallbackEffect where
  events : List Notification
  logs : List String
  abortedAfter : Bool
deriving DecidableEq, Repr

/-- Model of the callback passed to `bulkUpload` by `CloudinaryUploader.upload`:
`if (error && !signal.aborted)` a critical error aborts, emits
`UPLOAD_CRITICAL` and logs a distinguishing entry, a non-critical error emits
`UPLOAD_ERROR` and logs its message; otherwise — including the case of an
error arriving after the signal was aborted — it emits `UPLOAD_SUCCESS` with
the (possibly null) response. -/
def bulkUploadCallback (lineSep fileURL : String) (response : Option String)
    (error : Option UploadError) (aborted : Bool) : CallbackEffect :=
  match error, aborted with
  | some e, false =>
    if isCriticalError e then
      { events := [.uploadCritical fileURL (.errObj e)],
        logs := ["Aborting upload process due to critical error: " ++
          e.jsToString],
        abortedAfter := true }
    else
      { events := [.uploadError fileURL (.errObj e)],
        logs := [e.jsToString ++ lineSep],
        abortedAfter := false }
  | _, _ =>
      { events := [.uploadSuccess fileURL
          (match response with | some d => JSValue.respData d | none => JSValue.null)],
        logs := [],
        abortedAfter := aborted }

/- ===================================================================
   Section 6: Uploader.generateSignature (src/uploader.js)
   =================================================================== -/

/-- Lexicographic comparison of character lists, modelling the default
JavaScript `Array.prototype.sort()` string comparison used on the
`"key=value"` entries in `generateSignature`. -/
def charListLe : List Char → List Char → Bool
  | [], _ => true
  | _ :: _, [] => false
  | a :: as, b :: bs => if a = b then charListLe as bs else decide (a < b)

/-- String comparison derived from `charListLe`. -/
def jsLe (a b : String) : Bool := charListLe a.data b.data

/-- Ordered insertion, the building block of the sorting model. -/
def sortInsert (s : String) : List String → List String
  | [] => [s]
  | t :: ts => if jsLe s t then s :: t :: ts else t :: sortInsert s ts

/-- Model of `Array.prototype.sort()` with the default string comparator: any
sorting algorithm producing the (unique, by antisymmetry) sorted permutation
is an exact model. -/
def jsSort : List String → List String
  | [] => []
  | s :: ss => sortInsert s (jsSort ss)

/-- Model of `Uploader.generateSignature`: parameters are JavaScript object
entries (key/value pairs, values already stringified — `[v].join(",")` is the
string conversion of a scalar value).  The filter keeps entries `p` with
`String(p).length > 0`, where `String([k, v])` is `k + "," + v`; the mapped
`"k=v"` strings are sorted and joined with `"&"`, and the secret-suffixed
result is hashed.  The SHA-256 digest is an external pure function, passed in
as `hashFn`. -/
def generateSignature (hashFn : String → String) (apiSecret : String)
    (optionalParams : List (String × String)) : String :=
  let paramsToSign := String.intercalate "&"
    (jsSort ((optionalParams.filter
        (fun p => 0 < (p.1 ++ "," ++ p.2).length)).map
        (fun p => p.1 ++ "=" ++ p.2)))
  hashFn (paramsToSign ++ apiSecret)

/- ===================================================================
   Section 7: image validation (src/image_validation.js) and the
   pre-upload filter predicate of CloudinaryUploader.upload
   (src/async_filter.js)
   =================================================================== -/

/-- The three validation verdicts `ImageValidator.VALIDATION_RESULTS`. -/
inductive Verdict
  | valid
  | invalid
  | notAllowed
deriving DecidableEq, Repr

/-- Model of `getFileExtension`: the substring after the last `'.'`, `null`
when there is no `'.'` or when that substring is empty (`|| null`). -/
def getFileExtension (filename : String) : Option String :=
  if filename.data.contains '.' then
    let ext := (filename.data.reverse.takeWhile (fun c => c ≠ '.')).reverse
    if ext.isEmpty then none else some (String.mk ext)
  else none

/-- The magic-number table of src/image_validation.js, with the alias entries
(`dib`, `jpeg`, `jpe`, `tiff`) resolved to the arrays they share. -/
def magicNumTable : List (String × List String) :=
  [("bmp", ["424d"]),
   ("png", ["89504e47"]),
   ("gif", ["474946383761", "474946383961"]),
   ("jpg", ["ffd8ff"]),
   ("tif", ["49492a00", "4d4d002a", "4d4d002b"]),
   ("ico", ["00000100"]),
   ("dib", ["424d"]),
   ("jpeg", ["ffd8ff"]),
   ("jpe", ["ffd8ff"]),
   ("tiff", ["49492a00", "4d4d002a", "4d4d002b"])]

/-- `magicNumTable.get(ext)`: `undefined` when the extension is `null` or has
no entry. -/
def magicLookup (ext : Option String) : Option (List String) :=
  match ext with
  | none => none
  | some e => (magicNumTable.find? (fun kv => kv.1 == e)).map Prod.snd

/-- Case-insensitive comparison of two hex strings, modelling
`localeCompare(·, undefined, sensitivity: accent) === 0`. -/
def hexEqIgnoreCase (a b : String) : Bool :=
  a.data.map Char.toLower == b.data.map Char.toLower

/-- Model of `ImageValidator.isValidImage` on a file whose header bytes (as a
hex string) are `fileHeader`: extensions outside a non-empty allow-list give
NOT_ALLOWED; extensions with no magic-number entry are considered VALID; known
extensions are checked against the table. -/
def isValidImage (allowableTypes : List String) (filename : String)
    (fileHeader : String) : Verdict :=
  let ext := getFileExtension filename
  if 0 < allowableTypes.length &&
      !(match ext with
        | some e => allowableTypes.contains e
        | none => false) then
    Verdict.notAllowed
  else
    match magicLookup ext with
    | none => Verdict.valid
    | some magicNums =>
      if magicNums.any (fun m => hexEqIgnoreCase m fileHeader) then Verdict.valid
      else Verdict.invalid

/-- JavaScript runtime errors that the coordinator code can raise. -/
inductive JSError
  | typeError (message : String)
  | referenceError (message : String)
  | fileExistsError (filename : String)
deriving DecidableEq, Repr

/-- Model of the `logError` closure in `CloudinaryUploader.upload`.  The
source awaits `(errorFileHandle?.appendFile(msg, 'utf-8')).then(...)`; the
optional chain is closed by the parentheses, so when `errorFileHandle` is
`null` the parenthesized expression is `undefined` and the `.then` member
access throws a `TypeError`.  With a handle present the message is appended
and the pending-write bookkeeping runs. -/
def logErrorModel (errorFileHandle : Option Unit) (logs : List String)
    (msg : String) : Except JSError (List String) :=
  match errorFileHandle with
  | none => Except.error (JSError.typeError
      "Cannot read properties of undefined (reading 'then')")
  | some _ => Except.ok (logs ++ [msg])

/-- Effects of one evaluation of the filter predicate in
`CloudinaryUploader.upload`: notifications emitted, log entries appended, and
whether the file is kept for upload. -/
structure PredEffect where
  events : List Notification
  logs : List String
  keep : Bool
deriving DecidableEq, Repr

/-- Model of the async filter predicate of `CloudinaryUploader.upload`.
`imgRes` is the settlement of `validator.isValidImage(pathname)`:
- a rejection is caught, emits `UPLOAD_ERROR` and logs the error text, after
  which `imgRes` is `undefined` and the file is dropped;
- an INVALID verdict emits `UPLOAD_ERROR` and logs "file is invalid";
- a VALID verdict reaches the existence check, whose options object spreads
  `apiOptions` — an identifier declared nowhere in the module — so unless the
  check is bypassed (`optionalParams.overwrite` truthy) evaluation throws
  `ReferenceError: apiOptions is not defined`;
- NOT_ALLOWED short-circuits `imgRes === VALID && ...` and drops the file with
  no notification and no log entry. -/
def filterPredicate (errorFileHandle : Option Unit) (ignoreFileExistCheck : Bool)
    (lineSep pathname : String) (imgRes : Except UploadError Verdict) :
    Except JSError PredEffect :=
  match imgRes with
  | .error err =>
    match logErrorModel errorFileHandle [] (err.jsToString ++ lineSep) with
    | .error e => .error e
    | .ok logs =>
        .ok { events := [.uploadError pathname (.str err.jsToString)],
              logs := logs, keep := false }
  | .ok v =>
    if v = Verdict.invalid then
      match logErrorModel errorFileHandle []
          ("Failed to upload \"" ++ pathname ++ "\": file is invalid." ++ lineSep) with
      | .error e => .error e
      | .ok logs =>
          .ok { events := [.uploadError pathname
                  (.str ("Failed to upload \"" ++ pathname ++ "\": file is invalid."))],
                logs := logs, keep := false }
    else if v = Verdict.valid then
      if ignoreFileExistCheck then .ok { events := [], logs := [], keep := true }
      else .error (.referenceError "apiOptions is not defined")
    else
      .ok { events := [], logs := [], keep := false }

/-- A candidate file of the batch: its name and the settlement of the
validator on it. -/
structure Candidate where
  name : String
  vres : Except UploadError Verdict
deriving Repr

/-- Opening of the error file at the start of `CloudinaryUploader.upload`:
no `errorFilename` means no handle; otherwise flag `'w'` (overwrite) always
succeeds and flag `'wx'` rejects when the file already exists. -/
def openErrorFile (errorFilename : Option String)
    (overwrite alreadyExists : Bool) : Except JSError (Option Unit) :=
  match errorFilename with
  | none => Except.ok none
  | some fn =>
    if !overwrite && alreadyExists then Except.error (JSError.fileExistsError fn)
    else Except.ok (some ())

/-- `asyncFilter` over the candidates: `Promise.all` rejects as soon as any
predicate rejects, which rejects the whole `upload` call; otherwise the
surviving filenames are collected. -/
def runFilter (errorFileHandle : Option Unit) (ignoreFileExistCheck : Bool)
    (lineSep imgDir : String) : List Candidate → Except JSError (List String)
  | [] => .ok []
  | c :: rest =>
    match filterPredicate errorFileHandle ignoreFileExistCheck lineSep
        (imgDir ++ c.name) c.vres with
    | .error e => .error e
    | .ok eff =>
      match runFilter errorFileHandle ignoreFileExistCheck lineSep imgDir rest with
      | .error e => .error e
      | .ok names => .ok (if eff.keep then c.name :: names else names)

/-- Inputs of one `CloudinaryUploader.upload` batch run, up to the point where
the filtered filename list is handed to `bulkUpload`. -/
structure UploadInput where
  errorFilename : Option String
  errorFileOverwrite : Bool
  errorFileAlreadyExists : Bool
  lineSep : String
  optionalParamsOverwrite : Bool
  imgDir : String
  candidates : List Candidate
deriving Repr

/-- The pre-upload phase of `CloudinaryUploader.upload`: open the error file,
then run the async filter; a rejection of either phase rejects the returned
promise. -/
def uploadRun (inp : UploadInput) : Except JSError (List String) :=
  match openErrorFile inp.errorFilename inp.errorFileOverwrite
      inp.errorFileAlreadyExists with
  | .error e => .error e
  | .ok handle =>
      runFilter handle inp.optionalParamsOverwrite inp.lineSep inp.imgDir
        inp.candidates

/- ===================================================================
   Section 8: the pending-log-write counter and the closing of the
   error file (CloudinaryUploader.upload, src/async_filter.js)
   =================================================================== -/

/-- Atomic events of one batch run, as seen by the pending-write machinery:
`enq i` is the synchronous `++writeCount` slice of a `logError` call (each
call gets a fresh id `i`), `done i` is the `.then` continuation of that call's
`appendFile` running `--writeCount` (and emitting `END_WRITE` on reaching 0),
`settle` is the resolution of `Promise.allSettled` over the workers, and
`close` is `errorFileHandle?.close()`. -/
inductive LogEvent
  | enq (i : Nat)
  | done (i : Nat)
  | settle
  | close
deriving DecidableEq, Repr

/-- State of the pending-write machinery: ids enqueued so far, ids whose
append has completed, whether the workers' overall future has settled, and
whether the error file has been closed.  The source's `writeCount` equals
`enqd.length - doned.length`. -/
structure LogTracker where
  enqd : List Nat
  doned : List Nat
  settled : Bool
  closed : Bool
deriving DecidableEq, Repr

/-- One step of the pending-write machinery.  The guards encode the source:
- `enq`: every `logError` call runs inside the filter predicate or inside the
  `bulkUpload` callback, whose synchronous slices all execute strictly before
  `Promise.allSettled` resolves, so no write is enqueued after `settle`; each
  call is a distinct invocation, so ids are fresh;
- `done`: each `appendFile` promise settles at most once and only for a write
  that was enqueued, so each id completes at most once;
- `settle`: the workers' overall future resolves once;
- `close`: the `.then` after `bulkUpload` checks `writeCount > 0` and, if so,
  suspends on the one-shot `END_WRITE` event, emitted exactly by the
  decrement that brings the counter to 0; the check and the listener
  registration form one synchronous slice, so the emission cannot be missed —
  either way `close` runs only from a state where `writeCount = 0`, i.e.
  `enqd.length = doned.length`. -/
def logStep (s : LogTracker) : LogEvent → Option LogTracker
  | .enq i =>
    if s.settled = true ∨ i ∈ s.enqd then none
    else some { s with enqd := s.enqd ++ [i] }
  | .done i =>
    if i ∈ s.enqd ∧ i ∉ s.doned then some { s with doned := s.doned ++ [i] }
    else none
  | .settle => if s.settled = true then none else some { s with settled := true }
  | .close =>
    if s.settled = true ∧ s.closed = false ∧ s.enqd.length = s.doned.length then
      some { s with closed := true }
    else none

/-- Run of the pending-write machinery over a trace of events. -/
def logRun (s : LogTracker) : List LogEvent → Option LogTracker
  | [] => some s
  | e :: es =>
    match logStep s e with
    | none => none
    | some s' => logRun s' es

/-- Initial state of one batch run. -/
def logInit : LogTracker :=
  { enqd := [], doned := [], settled := false, closed := false }

/-- Invariant of the pending-write machinery: ids are distinct, only enqueued
writes complete, closing implies the workers settled, and once the file is
closed every enqueued write has completed. -/
def LogInv (s : LogTracker) : Prop :=
  s.enqd.Nodup ∧ s.doned.Nodup ∧ s.doned ⊆ s.enqd ∧
  (s.closed = true → s.settled = true) ∧
  (s.closed = true → ∀ i ∈ s.enqd, i ∈ s.doned)

/-- The concrete trace used in the C3 witness: two writes enqueued, one
completing before the workers settle and one after, then the close. -/
def c3DemoTrace : List LogEvent :=
  [LogEvent.enq 0, LogEvent.enq 1, LogEvent.done 1, LogEvent.settle,
    LogEvent.done 0, LogEvent.close]

/-- Final state reached by `c3DemoTrace`. -/
def c3DemoFinal : LogTracker :=
  { enqd := [0, 1], doned := [1, 0], settled := true, closed := true }

/- ===================================================================
   Section 9: the worker pool of Uploader.bulkUpload (src/uploader.js)
   =================================================================== -/

/-- Position of one worker loop: at the loop condition, processing the task
with the given index, or exited. -/
inductive WStatus
  | atHead
  | processing (idx : Nat)
  | finished
deriving DecidableEq, Repr

/-- Shared state of `bulkUpload`: the number `n` of filenames, the generator
cursor (index of the next filename `fileGen.next()` will yield), the worker
loops, and the abort flag of the `AbortController` signal. -/
structure PoolState where
  n : Nat
  cursor : Nat
  workers : List WStatus
  aborted : Bool
deriving DecidableEq, Repr

/-- Scheduler events: `loopCheck w` is worker `w` evaluating the loop
condition `!(nextFile = fileGen.next()).done && !signal?.aborted` — one
synchronous slice; `complete w fatal` is worker `w`'s awaited `chunkUpload`
chain settling, with the callback possibly calling `abort()` (fatal). -/
inductive PoolEvent
  | loopCheck (w : Nat)
  | complete (w : Nat) (fatal : Bool)
deriving DecidableEq, Repr

/-- Instrumented pool state: alongside the shared state, the sequence of
filename indices consumed from the generator (`claims`), the sequence of
`(worker, index)` pairs for which `chunkUpload` was actually invoked
(`starts`), and the settled tasks (`completes`). -/
structure PoolTrace where
  state : PoolState
  claims : List Nat
  starts : List (Nat × Nat)
  completes : List (Nat × Nat)
deriving DecidableEq, Repr

/-- One scheduler step of `bulkUpload`.  A `loopCheck` by a worker at the loop
head first calls `fileGen.next()`: if the generator is exhausted the worker
exits; otherwise a filename is consumed (claimed) and only then is
`signal?.aborted` consulted — when the signal is set the worker exits,
dropping the claimed filename; when it is not, the worker starts processing
it.  A `complete` returns the worker to the loop head and, when the callback
classified the error as critical, sets the abort flag. -/
def poolStep (t : PoolTrace) : PoolEvent → Option PoolTrace
  | .loopCheck w =>
    match t.state.workers[w]? with
    | some WStatus.atHead =>
      if t.state.cursor < t.state.n then
        if t.state.aborted = true then
          some { state := { t.state with
                            cursor := t.state.cursor + 1,
                            workers := t.state.workers.set w WStatus.finished },
                 claims := t.claims ++ [t.state.cursor],
                 starts := t.starts,
                 completes := t.completes }
        else
          some { state := { t.state with
                            cursor := t.state.cursor + 1,
                            workers := t.state.workers.set w
                              (WStatus.processing t.state.cursor) },
                 claims := t.claims ++ [t.state.cursor],
                 starts := t.starts ++ [(w, t.state.cursor)],
                 completes := t.completes }
      else
        some { state := { t.state with
                          workers := t.state.workers.set w WStatus.finished },
               claims := t.claims,
               starts := t.starts,
               completes := t.completes }
    | _ => none
  | .complete w fatal =>
    match t.state.workers[w]? with
    | some (WStatus.processing idx) =>
      some { state := { t.state with
                        workers := t.state.workers.set w WStatus.atHead,
                        aborted := t.state.aborted || fatal },
             claims := t.claims,
             starts := t.starts,
             completes := t.completes ++ [(w, idx)] }
    | _ => none

/-- Run of the pool over a scheduler trace. -/
def runPool (t : PoolTrace) : List PoolEvent → Option PoolTrace
  | [] => some t
  | e :: es =>
    match poolStep t e with
    | none => none
    | some t' => runPool t' es

/-- Initial pool for `n` filenames: `bulkUpload` creates exactly
`Math.min(MAX_CONCURRENT_UPLOADS, filenames.length)` worker promises, all at
their loop heads, cursor at 0, signal not aborted. -/
def poolInit (n : Nat) : PoolTrace :=
  { state := { n := n, cursor := 0,
               workers := List.replicate (min MAX_CONCURRENT_UPLOADS n)
                 WStatus.atHead,
               aborted := false },
    claims := [], starts := [], completes := [] }

/-- Number of entries of a `(worker, index)` list belonging to worker `w`. -/
def byWorker (w : Nat) (l : List (Nat × Nat)) : Nat :=
  (l.filter (fun p => p.1 == w)).length

/-- Number of tasks a worker in the given status has started but not yet
settled (0 or 1). -/
def statusDebt : WStatus → Nat
  | WStatus.processing _ => 1
  | _ => 0

/-- Inductive invariant of the pool. -/
def PoolInv (t : PoolTrace) : Prop :=
  t.state.cursor ≤ t.state.n ∧
  t.claims = List.range t.state.cursor ∧
  (t.starts.map Prod.snd).Sublist t.claims ∧
  (∀ w, byWorker w t.starts =
      byWorker w t.completes +
        statusDebt ((t.state.workers[w]?).getD WStatus.finished))

/-- Behavioural properties of any reachable pool state with `n` filenames:
the consumed filenames are exactly the first `cursor` ones in input (FIFO)
order, none consumed twice; the tasks actually dispatched to `chunkUpload`
form a subsequence of the consumed ones, none dispatched twice, each with a
valid index; and each worker has at most one task in flight (it returns to
the loop head only after its current task settles). -/
def PoolRunProps (n : Nat) (t : PoolTrace) : Prop :=
  t.claims = List.range t.state.cursor ∧
  t.claims.Nodup ∧
  (t.starts.map Prod.snd).Sublist t.claims ∧
  (t.starts.map Prod.snd).Nodup ∧
  (∀ p ∈ t.starts, p.2 < n) ∧
  (∀ w, byWorker w t.completes ≤ byWorker w t.starts ∧
      byWorker w t.starts ≤ byWorker w t.completes + 1)

/-- Scheduler trace of the C8 counterexample: worker 0 claims and starts
filename 0, and its completion is a fatal error that sets the signal. -/
def c8Trace1 : List PoolEvent := [PoolEvent.loopCheck 0, PoolEvent.complete 0 true]

/-- Pool state after `c8Trace1` (2 filenames, 2 workers): signal set, one
filename claimed. -/
def c8T1 : PoolTrace :=
  { state := { n := 2, cursor := 1, workers := [WStatus.atHead, WStatus.atHead],
               aborted := true },
    claims := [0], starts := [(0, 0)], completes := [(0, 0)] }

/-- Pool state after worker 0's next loop check: one more filename claimed
even though the signal is set. -/
def c8T2 : PoolTrace :=
  { state := { n := 2, cursor := 2, workers := [WStatus.finished, WStatus.atHead],
               aborted := true },
    claims := [0, 1], starts := [(0, 0)], completes := [(0, 0)] }

/- ===================================================================
   Theorems
   =================================================================== -/

theorem streamChunks_sum (chunkSize : Nat) (hc : 0 < chunkSize) :
    ∀ totalSize, (streamChunks totalSize chunkSize).sum = totalSize := by
  intro totalSize
  induction totalSize using Nat.strong_induction_on with
  | _ t ih =>
    rw [streamChunks]
    split
    · omega
    · split
      · simp_all
      · split
        · simp
        · rename_i h0 ht hle
          rw [List.sum_cons, ih (t - chunkSize) (by omega)]
          omega

theorem streamChunks_pos (chunkSize : Nat) :
    ∀ totalSize, ∀ c ∈ streamChunks totalSize chunkSize, 0 < c := by
  intro totalSize
  induction totalSize using Nat.strong_induction_on with
  | _ t ih =>
    rw [streamChunks]
    split
    · simp
    · split
      · simp
      · split
        · rename_i h0 ht hle
          intro c hcmem
          simp at hcmem
          omega
        · rename_i h0 ht hle
          intro c hcmem
          rcases List.mem_cons.mp hcmem with rfl | hmem
          · omega
          · exact ih (t - chunkSize) (by omega) c hmem

theorem streamChunks_ne_nil (totalSize chunkSize : Nat) (hc : 0 < chunkSize)
    (ht : 0 < totalSize) : streamChunks totalSize chunkSize ≠ [] := by
  rw [streamChunks]
  split
  · omega
  · split
    · omega
    · split
      · simp
      · simp

theorem chunkRanges_length (l : List Nat) (s : Nat) :
    (chunkRanges l s).length = l.length := by
  induction l generalizing s with
  | nil => rfl
  | cons c rest ih => simp [chunkRanges, ih]

theorem chunkRanges_cover (l : List Nat) (s b : Nat) :
    (∃ r ∈ chunkRanges l s, r.1 ≤ b ∧ b < r.2) ↔ s ≤ b ∧ b < s + l.sum := by
  induction l generalizing s with
  | nil => simp [chunkRanges]
  | cons c rest ih =>
    simp only [chunkRanges, List.mem_cons, List.sum_cons]
    constructor
    · rintro ⟨r, hr | hr, hle, hlt⟩
      · subst hr
        simp at hle hlt ⊢
        omega
      · have := (ih (s + c)).mp ⟨r, hr, hle, hlt⟩
        omega
    · intro hb
      by_cases hfirst : b < s + c
      · exact ⟨(s, s + c), Or.inl rfl, by simp; omega⟩
      · have := (ih (s + c)).mpr (by omega)
        rcases this with ⟨r, hr, hle, hlt⟩
        exact ⟨r, Or.inr hr, hle, hlt⟩

theorem chunkRanges_chain : ∀ (l : List Nat) (s : Nat),
    (chunkRanges l s).Chain' (fun r₁ r₂ => r₁.2 = r₂.1)
  | [], _ => by simp [chunkRanges]
  | [c], s => by simp [chunkRanges]
  | c :: c₂ :: rest, s => by
    have h := chunkRanges_chain (c₂ :: rest) (s + c)
    simp only [chunkRanges] at h ⊢
    exact List.Chain'.cons rfl h

theorem chunkRanges_start_le (l : List Nat) (s : Nat) :
    ∀ r ∈ chunkRanges l s, s ≤ r.1 := by
  induction l generalizing s with
  | nil => simp [chunkRanges]
  | cons c rest ih =>
    intro r hr
    rcases List.mem_cons.mp hr with rfl | hmem
    · simp
    · have := ih (s + c) r hmem
      omega

theorem chunkRanges_pairwise (l : List Nat) (s : Nat) :
    (chunkRanges l s).Pairwise (fun r₁ r₂ => r₁.2 ≤ r₂.1) := by
  induction l generalizing s with
  | nil => simp [chunkRanges]
  | cons c rest ih =>
    refine List.Pairwise.cons ?_ (ih (s + c))
    intro r hr
    have := chunkRanges_start_le rest (s + c) r hr
    simp
    omega

theorem chunkRanges_pos (l : List Nat) (s : Nat) (h : ∀ c ∈ l, 0 < c) :
    ∀ r ∈ chunkRanges l s, r.1 < r.2 := by
  induction l generalizing s with
  | nil => simp [chunkRanges]
  | cons c rest ih =>
    intro r hr
    rcases List.mem_cons.mp hr with rfl | hmem
    · have := h c (List.mem_cons_self c rest)
      simp
      omega
    · exact ih (s + c) (fun x hx => h x (List.mem_cons_of_mem c hx)) r hmem

theorem chunkRanges_getLast (l : List Nat) (s : Nat) (h : l ≠ []) :
    ∃ a, (chunkRanges l s).getLast? = some (a, s + l.sum) := by
  induction l generalizing s with
  | nil => contradiction
  | cons c rest ih =>
    cases rest with
    | nil => exact ⟨s, by simp [chunkRanges]⟩
    | cons c₂ rest₂ =>
      rcases ih (s := s + c) (by simp) with ⟨a, ha⟩
      refine ⟨a, ?_⟩
      simp only [chunkRanges, List.getLast?_cons_cons] at ha ⊢
      rw [ha]
      congr 2
      simp [List.sum_cons]
      omega

/-- C1: for a file of known size `totalSize` split by `chunkUpload` into `k`
chunks, exactly `k` chunk requests are issued, each carrying a Content-Range
header `bytes start-(end-1)/totalSize`; the half-open ranges `[start, end)`
cover `[0, totalSize)` exactly, with no gaps and no overlaps, each range's
start equal to the previous range's end, and the last computed `end` equal to
`totalSize`. -/
theorem c1_chunk_ranges (totalSize chunkSize : Nat) (hc : 0 < chunkSize) :
    ChunkSpec totalSize chunkSize := by
  refine ⟨?_, rfl, ?_, ?_, ?_, ?_, ?_, ?_⟩
  · rw [chunkRequests, List.length_map, chunkRanges_length]
  · intro b
    rw [chunkRanges_cover]
    rw [streamChunks_sum chunkSize hc totalSize]
    omega
  · exact chunkRanges_chain _ 0
  · exact chunkRanges_pairwise _ 0
  · exact chunkRanges_pos _ 0 (streamChunks_pos chunkSize totalSize)
  · intro ht
    have := chunkRanges_getLast (streamChunks totalSize chunkSize) 0
      (streamChunks_ne_nil totalSize chunkSize hc ht)
    rw [streamChunks_sum chunkSize hc totalSize] at this
    simpa using this
  · intro ht
    have hne := streamChunks_ne_nil totalSize chunkSize hc ht
    cases hl : streamChunks totalSize chunkSize with
    | nil => exact absurd hl hne
    | cons c rest => simp [chunkRanges]

/-- Witness for C1 at a concrete input: a 12-byte file read in 5-byte chunks
(three chunks, ranges `[0,5)`, `[5,10)`, `[10,12)`). -/
theorem c1_chunk_ranges_witness : 0 < 5 ∧ ChunkSpec 12 5 :=
  ⟨by decide, c1_chunk_ranges 12 5 (by decide)⟩

/-- C2: an error is classified as non-fatal by the coordinator exactly when it
is a `FileOpenError`, or a `ServerResponseError` whose HTTP status is 400, 404
or 409; every other `ServerResponseError`, every `FileUploadError` and every
unrecognized error is fatal. -/
theorem c2_critical_classification (e : UploadError) :
    isCriticalError e = false ↔
      ((∃ m p, e = UploadError.fileOpen m p) ∨
       (∃ m p c, e = UploadError.serverResponse m p c ∧
          (c = 400 ∨ c = 404 ∨ c = 409))) := by
  cases e with
  | fileOpen m p => simp [isCriticalError]
  | fileUpload m p => simp [isCriticalError]
  | unrecognized m => simp [isCriticalError]
  | serverResponse m p c =>
    simp only [isCriticalError, BAD_REQUEST, NOT_FOUND, CONFLICT]
    constructor
    · intro h
      refine Or.inr ⟨m, p, c, rfl, ?_⟩
      by_cases h1 : c = 400
      · exact Or.inl h1
      by_cases h2 : c = 404
      · exact Or.inr (Or.inl h2)
      by_cases h3 : c = 409
      · exact Or.inr (Or.inr h3)
      simp [h1, h2, h3] at h
    · rintro (⟨m', p', h⟩ | ⟨m', p', c', h, hc⟩)
      · simp at h
      · cases h
        rcases hc with rfl | rfl | rfl <;> simp

/-- C6 (failing input): for a zero-byte file the read stream emits `open` and
`end` but no `data` event, so neither `resolve` nor `reject` is ever called —
the promise returned by `chunkUpload` never settles, i.e. the file produces
zero terminal outcomes, contradicting the exactly-one-outcome guarantee. -/
theorem c6_empty_file_never_settles :
    chunkUploadOutcome "/images/empty.dat" (FileAccess.readable []) = none := rfl

/-- C7 (failing input): when a file's transfer fails after the cancellation
signal has already been set (a second in-flight file failing after a critical
abort), the callback takes its `else` branch and emits `UPLOAD_SUCCESS` with a
`null` response for a file whose upload failed — contradicting the claim that
success notifications are emitted only for files whose upload actually
succeeded. -/
theorem c7_aborted_failure_reports_success :
    bulkUploadCallback "," "/images/b.png" none
      (some (UploadError.fileUpload "socket hang up" "/images/b.png")) true =
      { events := [Notification.uploadSuccess "/images/b.png" JSValue.null],
        logs := [], abortedAfter := true } := rfl

theorem charListLe_total : ∀ a b, charListLe a b = true ∨ charListLe b a = true
  | [], _ => Or.inl rfl
  | _ :: _, [] => Or.inr rfl
  | a :: as, b :: bs => by
    simp only [charListLe]
    by_cases hab : a = b
    · subst hab
      simpa using charListLe_total as bs
    · have hba : ¬ b = a := fun h => hab h.symm
      simp only [if_neg hab, if_neg hba, decide_eq_true_eq]
      rcases lt_or_gt_of_ne hab with h | h
      · exact Or.inl h
      · exact Or.inr h

theorem charListLe_trans : ∀ a b c, charListLe a b = true → charListLe b c = true →
    charListLe a c = true
  | [], _, _, _, _ => rfl
  | _ :: _, [], _, h, _ => by simp [charListLe] at h
  | _ :: _, _ :: _, [], _, h => by simp [charListLe] at h
  | a :: as, b :: bs, c :: cs, h₁, h₂ => by
    simp only [charListLe] at *
    by_cases hab : a = b <;> by_cases hbc : b = c
    · subst hab; subst hbc
      simp only [if_pos rfl] at *
      exact charListLe_trans as bs cs h₁ h₂
    · subst hab
      simp only [if_pos rfl] at h₁
      simp only [if_neg hbc] at h₂ ⊢
      exact h₂
    · subst hbc
      simp only [if_pos rfl] at h₂
      simp only [if_neg hab] at h₁ ⊢
      exact h₁
    · simp only [if_neg hab, if_neg hbc, decide_eq_true_eq] at h₁ h₂
      have hac : a < c := lt_trans h₁ h₂
      have hne : ¬ a = c := ne_of_lt hac
      simp [if_neg hne, hac]

theorem charListLe_antisymm : ∀ a b, charListLe a b = true → charListLe b a = true → a = b
  | [], [], _, _ => rfl
  | [], _ :: _, _, h => by simp [charListLe] at h
  | _ :: _, [], h, _ => by simp [charListLe] at h
  | a :: as, b :: bs, h₁, h₂ => by
    simp only [charListLe] at h₁ h₂
    by_cases hab : a = b
    · subst hab
      simp only [if_pos rfl] at h₁ h₂
      exact congrArg _ (charListLe_antisymm as bs h₁ h₂)
    · have hba : ¬ b = a := fun h => hab h.symm
      simp only [if_neg hab, if_neg hba, decide_eq_true_eq] at h₁ h₂
      exact absurd h₂ (not_lt_of_gt h₁)

theorem jsLe_antisymm (a b : String) (h₁ : jsLe a b = true) (h₂ : jsLe b a = true) :
    a = b := by
  cases a; cases b
  exact congrArg _ (charListLe_antisymm _ _ h₁ h₂)

theorem sortInsert_perm (s : String) (l : List String) :
    (sortInsert s l).Perm (s :: l) := by
  induction l with
  | nil => simp [sortInsert]
  | cons t ts ih =>
    simp only [sortInsert]
    split
    · exact List.Perm.refl _
    · exact (List.Perm.cons t ih).trans (List.Perm.swap s t ts)

theorem jsSort_perm (l : List String) : (jsSort l).Perm l := by
  induction l with
  | nil => simp [jsSort]
  | cons s ss ih => exact (sortInsert_perm s (jsSort ss)).trans (ih.cons s)

theorem sortInsert_sorted (s : String) (l : List String)
    (h : l.Pairwise (fun a b => jsLe a b = true)) :
    (sortInsert s l).Pairwise (fun a b => jsLe a b = true) := by
  induction l with
  | nil => simp [sortInsert]
  | cons t ts ih =>
    simp only [sortInsert]
    rcases h with - | ⟨ht, hts⟩
    split
    · rename_i hst
      refine List.Pairwise.cons ?_ (List.Pairwise.cons ht hts)
      intro x hx
      rcases hx with _ | hx
      · exact hst
      · exact charListLe_trans _ _ _ hst (ht x (by assumption))
    · rename_i hst
      have hts' := ih hts
      refine List.Pairwise.cons ?_ hts'
      intro x hx
      have hx' := (sortInsert_perm s ts).mem_iff.mp hx
      rcases List.mem_cons.mp hx' with hxs | hx''
      · rw [hxs]
        rcases charListLe_total s.data t.data with h' | h'
        · exact absurd h' hst
        · exact h'
      · exact ht x hx''

theorem jsSort_sorted (l : List String) :
    (jsSort l).Pairwise (fun a b => jsLe a b = true) := by
  induction l with
  | nil => simp [jsSort]
  | cons s ss ih => exact sortInsert_sorted s (jsSort ss) ih

theorem jsSort_eq_of_perm (l₁ l₂ : List String) (h : l₁.Perm l₂) :
    jsSort l₁ = jsSort l₂ := by
  haveI : IsAntisymm String (fun a b => jsLe a b = true) := ⟨jsLe_antisymm⟩
  apply List.eq_of_perm_of_sorted (r := fun a b => jsLe a b = true)
  · exact (jsSort_perm l₁).trans (h.trans (jsSort_perm l₂).symm)
  · exact jsSort_sorted l₁
  · exact jsSort_sorted l₂

/-- C9: `generateSignature` is a pure function of its inputs and is
order-independent over the parameter object: two parameter lists holding the
same key/value pairs in any order produce, for every hash function and secret,
the identical signature token. -/
theorem c9_signature_order_independent (hashFn : String → String)
    (apiSecret : String) (params₁ params₂ : List (String × String))
    (h : params₁.Perm params₂) :
    generateSignature hashFn apiSecret params₁ =
      generateSignature hashFn apiSecret params₂ := by
  unfold generateSignature
  have hperm : (params₁.filter (fun p => 0 < (p.1 ++ "," ++ p.2).length)).Perm
      (params₂.filter (fun p => 0 < (p.1 ++ "," ++ p.2).length)) := h.filter _
  rw [jsSort_eq_of_perm _ _ (hperm.map _)]

/-- Witness for C9 at concrete inputs: the same two parameters in both orders. -/
theorem c9_signature_order_independent_witness :
    List.Perm [("folder", "pics"), ("overwrite", "true")]
      [("overwrite", "true"), ("folder", "pics")] ∧
    generateSignature id "secret" [("folder", "pics"), ("overwrite", "true")] =
      generateSignature id "secret" [("overwrite", "true"), ("folder", "pics")] :=
  ⟨by decide, c9_signature_order_independent id "secret" _ _ (by decide)⟩

/-- C10: a candidate whose verdict is NOT_ALLOWED (non-empty allow-list, and
the file's extension is not in it) is dropped silently — the predicate returns
false with no notification and no log entry — while an INVALID candidate
produces exactly one error notification and one log entry. -/
theorem c10_not_allowed_is_silent (allowableTypes : List String)
    (filename fileHeader : String) (handle : Option Unit) (ignoreExist : Bool)
    (lineSep pathname : String)
    (hne : 0 < allowableTypes.length)
    (hext : (match getFileExtension filename with
             | some e => allowableTypes.contains e
             | none => false) = false) :
    isValidImage allowableTypes filename fileHeader = Verdict.notAllowed ∧
    filterPredicate handle ignoreExist lineSep pathname
        (Except.ok Verdict.notAllowed) =
      Except.ok { events := [], logs := [], keep := false } ∧
    filterPredicate (some ()) ignoreExist lineSep pathname
        (Except.ok Verdict.invalid) =
      Except.ok { events := [Notification.uploadError pathname
                    (JSValue.str ("Failed to upload \"" ++ pathname ++ "\": file is invalid."))],
                  logs := ["Failed to upload \"" ++ pathname ++ "\": file is invalid." ++ lineSep],
                  keep := false } := by
  refine ⟨?_, rfl, rfl⟩
  rw [isValidImage]
  rw [if_pos]
  rw [hext]
  simp [hne]

/-- Witness for C10 at a concrete input: allow-list `png, jpg` and the file
`notes.txt`. -/
theorem c10_not_allowed_is_silent_witness :
    0 < (["png", "jpg"] : List String).length ∧
    (match getFileExtension "notes.txt" with
     | some e => (["png", "jpg"] : List String).contains e
     | none => false) = false ∧
    (isValidImage ["png", "jpg"] "notes.txt" "" = Verdict.notAllowed ∧
     filterPredicate none false "\n" "/images/notes.txt"
         (Except.ok Verdict.notAllowed) =
       Except.ok { events := [], logs := [], keep := false } ∧
     filterPredicate (some ()) false "\n" "/images/notes.txt"
         (Except.ok Verdict.invalid) =
       Except.ok { events := [Notification.uploadError "/images/notes.txt"
                     (JSValue.str "Failed to upload \"/images/notes.txt\": file is invalid.")],
                   logs := ["Failed to upload \"/images/notes.txt\": file is invalid.\n"],
                   keep := false }) :=
  ⟨by decide, by decide,
    c10_not_allowed_is_silent ["png", "jpg"] "notes.txt" "" none false "\n"
      "/images/notes.txt" (by decide) (by decide)⟩

/-- C5 (failing input): for a VALID candidate with the existence check not
bypassed, the filter predicate evaluates `checkExists(f, ...apiOptions)` where
`apiOptions` is declared nowhere in src/async_filter.js — JavaScript raises
`ReferenceError: apiOptions is not defined` and the batch promise rejects, so
no existence query is ever made. -/
theorem c5_exist_check_reference_error :
    filterPredicate (some ()) false "\n" "/images/good.png"
        (Except.ok Verdict.valid) =
      Except.error (JSError.referenceError "apiOptions is not defined") := rfl

/-- C4 (failing input): a batch run with no `errorFilename` (a documented,
supported configuration) and a single INVALID candidate rejects with a
`TypeError` raised inside `logError` — a file-level failure, not a pre-flight
log-open failure — contradicting the claim that only the pre-flight open can
fail the batch. -/
theorem c4_file_failure_rejects_batch :
    uploadRun { errorFilename := none, errorFileOverwrite := false,
                errorFileAlreadyExists := false, lineSep := "\n",
                optionalParamsOverwrite := false, imgDir := "/images/",
                candidates := [{ name := "bad.png",
                                 vres := Except.ok Verdict.invalid }] } =
      Except.error (JSError.typeError
        "Cannot read properties of undefined (reading 'then')") := rfl

theorem logStep_inv (s s' : LogTracker) (e : LogEvent) (hs : LogInv s)
    (h : logStep s e = some s') : LogInv s' := by
  obtain ⟨he, hd, hsub, hcs, hcl⟩ := hs
  cases e with
  | enq i =>
    simp only [logStep] at h
    split at h
    · exact absurd h (by simp)
    · rename_i hguard
      push_neg at hguard
      obtain ⟨hset, hfresh⟩ := hguard
      cases h
      refine ⟨?_, hd, ?_, hcs, ?_⟩
      · simp [List.nodup_append, he, hfresh]
      · exact hsub.trans (List.subset_append_left _ _)
      · intro hcls
        exact absurd (hcs hcls) hset
  | done i =>
    simp only [logStep] at h
    split at h
    · rename_i hguard
      obtain ⟨hin, hnotd⟩ := hguard
      cases h
      refine ⟨he, ?_, ?_, hcs, ?_⟩
      · simp [List.nodup_append, hd, hnotd]
      · intro x hx
        rcases List.mem_append.mp hx with hx | hx
        · exact hsub hx
        · simp at hx
          subst hx
          exact hin
      · intro hcls i' hi'
        exact List.mem_append.mpr (Or.inl (hcl hcls i' hi'))
    · exact absurd h (by simp)
  | settle =>
    simp only [logStep] at h
    split at h
    · exact absurd h (by simp)
    · cases h
      exact ⟨he, hd, hsub, fun _ => rfl, fun hcls => hcl hcls⟩
  | close =>
    simp only [logStep] at h
    split at h
    · rename_i hguard
      obtain ⟨hset, hncl, hlen⟩ := hguard
      cases h
      refine ⟨he, hd, hsub, fun _ => hset, fun _ => ?_⟩
      have hsp : s.doned.Subperm s.enqd := List.subperm_of_subset hd hsub
      have hperm : s.doned.Perm s.enqd :=
        hsp.perm_of_length_le (Nat.le_of_eq hlen)
      intro i hi
      exact hperm.mem_iff.mpr hi
    · exact absurd h (by simp)

theorem logRun_inv (tr : List LogEvent) (s₀ s : LogTracker) (hs₀ : LogInv s₀)
    (h : logRun s₀ tr = some s) : LogInv s := by
  induction tr generalizing s₀ with
  | nil =>
    simp only [logRun] at h
    cases h
    exact hs₀
  | cons e es ih =>
    simp only [logRun] at h
    cases hstep : logStep s₀ e with
    | none => rw [hstep] at h; exact absurd h (by simp)
    | some s₁ =>
      rw [hstep] at h
      exact ih s₁ (logStep_inv s₀ s₁ e hs₀ hstep) h

/-- C3: in every batch run, at the moment the error-log resource is closed
every log write that was enqueued (`writeCount` incremented) has completed
(`writeCount` decremented back to zero): the completed ids are exactly the
enqueued ids, none is lost by closing early, and none completes twice. -/
theorem c3_close_after_all_writes (tr : List LogEvent) (s : LogTracker)
    (h : logRun logInit tr = some s) (hclosed : s.closed = true) :
    (∀ i, i ∈ s.enqd ↔ i ∈ s.doned) ∧ s.doned.Nodup := by
  have hinv : LogInv s := logRun_inv tr logInit s
    ⟨List.nodup_nil, List.nodup_nil, by simp [logInit], by simp [logInit], by simp [logInit]⟩ h
  obtain ⟨he, hd, hsub, hcs, hcl⟩ := hinv
  exact ⟨fun i => ⟨fun hi => hcl hclosed i hi, fun hi => hsub hi⟩, hd⟩

/-- Witness for C3 at the concrete trace `c3DemoTrace`. -/
theorem c3_close_after_all_writes_witness :
    logRun logInit c3DemoTrace = some c3DemoFinal ∧
    ((∀ i, i ∈ c3DemoFinal.enqd ↔ i ∈ c3DemoFinal.doned) ∧
      c3DemoFinal.doned.Nodup) :=
  ⟨by decide, c3_close_after_all_writes c3DemoTrace c3DemoFinal (by decide) (by decide)⟩

theorem byWorker_append (w u i : Nat) (l : List (Nat × Nat)) :
    byWorker w (l ++ [(u, i)]) =
      byWorker w l + (if u = w then 1 else 0) := by
  simp only [byWorker, List.filter_append, List.length_append]
  congr 1
  by_cases h : u = w
  · have hb : (u == w) = true := beq_iff_eq.mpr h
    simp [List.filter, hb, h]
  · have hb : (u == w) = false := beq_eq_false_iff_ne.mpr h
    simp [List.filter, hb, h]

theorem getD_set_of_mem (l : List WStatus) (w : Nat) (x st : WStatus)
    (hw : l[w]? = some st) (u : Nat) :
    ((l.set w x)[u]?).getD WStatus.finished =
      if w = u then x else (l[u]?).getD WStatus.finished := by
  obtain ⟨hlt, -⟩ := List.getElem?_eq_some.mp hw
  rw [List.getElem?_set]
  by_cases h : w = u
  · subst h
    simp [hlt]
  · simp [h]

theorem statusDebt_le_one (st : WStatus) : statusDebt st ≤ 1 := by
  cases st <;> simp [statusDebt]

theorem poolStep_inv (t t' : PoolTrace) (e : PoolEvent) (ht : PoolInv t)
    (h : poolStep t e = some t') : PoolInv t' := by
  obtain ⟨hcn, hcl, hsub, hdebt⟩ := ht
  cases e with
  | loopCheck w =>
    simp only [poolStep] at h
    cases hw : t.state.workers[w]? with
    | none => rw [hw] at h; exact Option.noConfusion h
    | some st =>
      rw [hw] at h
      cases st with
      | processing idx => exact Option.noConfusion h
      | finished => exact Option.noConfusion h
      | atHead =>
        by_cases hlt : t.state.cursor < t.state.n
        · rw [if_pos hlt] at h
          by_cases hab : t.state.aborted = true
          · rw [if_pos hab] at h
            cases h
            refine ⟨by dsimp only; omega, ?_, ?_, ?_⟩
            · simp only [hcl, ← List.range_succ]
            · exact hsub.trans (List.sublist_append_left _ _)
            · intro u
              dsimp only
              rw [getD_set_of_mem _ _ _ _ hw u]
              by_cases huw : w = u
              · subst huw
                rw [if_pos rfl]
                have hd := hdebt w
                rw [hw] at hd
                simp only [Option.getD_some, statusDebt] at hd ⊢
                exact hd
              · rw [if_neg huw]
                exact hdebt u
          · rw [if_neg hab] at h
            cases h
            refine ⟨by dsimp only; omega, ?_, ?_, ?_⟩
            · simp only [hcl, ← List.range_succ]
            · simp only [List.map_append]
              exact List.Sublist.append hsub (List.Sublist.refl _)
            · intro u
              dsimp only
              rw [getD_set_of_mem _ _ _ _ hw u, byWorker_append]
              by_cases huw : w = u
              · subst huw
                rw [if_pos rfl, if_pos rfl]
                have hd := hdebt w
                rw [hw] at hd
                simp only [Option.getD_some, statusDebt] at hd ⊢
                omega
              · rw [if_neg huw, if_neg huw]
                have hd := hdebt u
                omega
        · rw [if_neg hlt] at h
          cases h
          refine ⟨hcn, hcl, hsub, ?_⟩
          intro u
          dsimp only
          rw [getD_set_of_mem _ _ _ _ hw u]
          by_cases huw : w = u
          · subst huw
            rw [if_pos rfl]
            have hd := hdebt w
            rw [hw] at hd
            simp only [Option.getD_some, statusDebt] at hd ⊢
            exact hd
          · rw [if_neg huw]
            exact hdebt u
  | complete w fatal =>
    simp only [poolStep] at h
    cases hw : t.state.workers[w]? with
    | none => rw [hw] at h; exact Option.noConfusion h
    | some st =>
      rw [hw] at h
      cases st with
      | atHead => exact Option.noConfusion h
      | finished => exact Option.noConfusion h
      | processing idx =>
        cases h
        refine ⟨hcn, hcl, hsub, ?_⟩
        intro u
        dsimp only
        rw [getD_set_of_mem _ _ _ _ hw u, byWorker_append]
        by_cases huw : w = u
        · subst huw
          rw [if_pos rfl, if_pos rfl]
          have hd := hdebt w
          rw [hw] at hd
          simp only [Option.getD_some, statusDebt] at hd ⊢
          omega
        · rw [if_neg huw, if_neg huw]
          have hd := hdebt u
          omega

theorem poolInit_inv (n : Nat) : PoolInv (poolInit n) := by
  refine ⟨Nat.zero_le n, rfl, List.Sublist.refl _, ?_⟩
  intro u
  simp only [poolInit, byWorker, List.filter_nil, List.length_nil,
    List.getElem?_replicate]
  by_cases hu : u < min MAX_CONCURRENT_UPLOADS n
  · simp [hu, statusDebt]
  · simp [hu, statusDebt]

theorem runPool_inv (tr : List PoolEvent) (t₀ t : PoolTrace) (h₀ : PoolInv t₀)
    (h : runPool t₀ tr = some t) : PoolInv t := by
  induction tr generalizing t₀ with
  | nil =>
    simp only [runPool] at h
    cases h
    exact h₀
  | cons e es ih =>
    simp only [runPool] at h
    cases hstep : poolStep t₀ e with
    | none => rw [hstep] at h; exact Option.noConfusion h
    | some t₁ =>
      rw [hstep] at h
      exact ih t₁ (poolStep_inv t₀ t₁ e h₀ hstep) h

theorem poolStep_n (t t' : PoolTrace) (e : PoolEvent)
    (h : poolStep t e = some t') : t'.state.n = t.state.n := by
  cases e with
  | loopCheck w =>
    simp only [poolStep] at h
    cases hw : t.state.workers[w]? with
    | none => rw [hw] at h; exact Option.noConfusion h
    | some st =>
      rw [hw] at h
      cases st with
      | processing idx => exact Option.noConfusion h
      | finished => exact Option.noConfusion h
      | atHead =>
        by_cases hlt : t.state.cursor < t.state.n
        · rw [if_pos hlt] at h
          by_cases hab : t.state.aborted = true
          · rw [if_pos hab] at h
            cases h; rfl
          · rw [if_neg hab] at h
            cases h; rfl
        · rw [if_neg hlt] at h
          cases h; rfl
  | complete w fatal =>
    simp only [poolStep] at h
    cases hw : t.state.workers[w]? with
    | none => rw [hw] at h; exact Option.noConfusion h
    | some st =>
      rw [hw] at h
      cases st with
      | atHead => exact Option.noConfusion h
      | finished => exact Option.noConfusion h
      | processing idx => cases h; rfl

theorem runPool_n (tr : List PoolEvent) (t₀ t : PoolTrace)
    (h : runPool t₀ tr = some t) : t.state.n = t₀.state.n := by
  induction tr generalizing t₀ with
  | nil => simp only [runPool] at h; cases h; rfl
  | cons e es ih =>
    simp only [runPool] at h
    cases hstep : poolStep t₀ e with
    | none => rw [hstep] at h; exact Option.noConfusion h
    | some t₁ =>
      rw [hstep] at h
      exact (ih t₁ h).trans (poolStep_n t₀ t₁ e hstep)

theorem poolStep_aborted (t t' : PoolTrace) (e : PoolEvent)
    (ha : t.state.aborted = true) (h : poolStep t e = some t') :
    t'.starts = t.starts ∧ t'.state.aborted = true := by
  cases e with
  | loopCheck w =>
    simp only [poolStep] at h
    cases hw : t.state.workers[w]? with
    | none => rw [hw] at h; exact Option.noConfusion h
    | some st =>
      rw [hw] at h
      cases st with
      | processing idx => exact Option.noConfusion h
      | finished => exact Option.noConfusion h
      | atHead =>
        by_cases hlt : t.state.cursor < t.state.n
        · rw [if_pos hlt, if_pos ha] at h
          cases h
          exact ⟨rfl, ha⟩
        · rw [if_neg hlt] at h
          cases h
          exact ⟨rfl, ha⟩
  | complete w fatal =>
    simp only [poolStep] at h
    cases hw : t.state.workers[w]? with
    | none => rw [hw] at h; exact Option.noConfusion h
    | some st =>
      rw [hw] at h
      cases st with
      | atHead => exact Option.noConfusion h
      | finished => exact Option.noConfusion h
      | processing idx =>
        cases h
        exact ⟨rfl, by simp [ha]⟩

theorem runPool_aborted (tr : List PoolEvent) (t₀ t : PoolTrace)
    (ha : t₀.state.aborted = true) (h : runPool t₀ tr = some t) :
    t.starts = t₀.starts ∧ t.state.aborted = true := by
  induction tr generalizing t₀ with
  | nil =>
    simp only [runPool] at h
    cases h
    exact ⟨rfl, ha⟩
  | cons e es ih =>
    simp only [runPool] at h
    cases hstep : poolStep t₀ e with
    | none => rw [hstep] at h; exact Option.noConfusion h
    | some t₁ =>
      rw [hstep] at h
      obtain ⟨hs, ha'⟩ := poolStep_aborted t₀ t₁ e ha hstep
      obtain ⟨hs', ha''⟩ := ih t₁ ha' h
      exact ⟨hs'.trans hs, ha''⟩

theorem runPool_append (t : PoolTrace) (tr₁ tr₂ : List PoolEvent) :
    runPool t (tr₁ ++ tr₂) = (runPool t tr₁).bind (fun t' => runPool t' tr₂) := by
  induction tr₁ generalizing t with
  | nil => simp [runPool]
  | cons e es ih =>
    simp only [List.cons_append, runPool]
    cases poolStep t e with
    | none => simp
    | some t' => simp [ih t']

/-- C8 (amended): `bulkUpload` creates exactly `min(10, n)` worker loops; in
every schedule, filenames are claimed from the shared generator in FIFO input
order and each is claimed (and processed) at most once; a worker claims its
next task only after its current task settles (at most one task in flight per
worker); and once the cancellation signal is set no worker dispatches a
further task — though a worker returning to its loop head after the signal is
set still consumes (and discards) one filename from the generator, because
`fileGen.next()` is called before `signal?.aborted` is checked. -/
theorem c8_worker_pool :
    (∀ n, (poolInit n).state.workers.length = min MAX_CONCURRENT_UPLOADS n) ∧
    (∀ n tr t, runPool (poolInit n) tr = some t → PoolRunProps n t) ∧
    (∀ n tr₁ tr₂ t₁ t₂, runPool (poolInit n) tr₁ = some t₁ →
        t₁.state.aborted = true →
        runPool (poolInit n) (tr₁ ++ tr₂) = some t₂ →
        t₂.starts = t₁.starts ∧ t₂.state.aborted = true) := by
  refine ⟨?_, ?_, ?_⟩
  · intro n
    simp [poolInit]
  · intro n tr t h
    obtain ⟨hcn, hcl, hsub, hdebt⟩ := runPool_inv tr (poolInit n) t (poolInit_inv n) h
    have hn : t.state.n = n := runPool_n tr (poolInit n) t h
    refine ⟨hcl, ?_, hsub, ?_, ?_, ?_⟩
    · rw [hcl]
      exact List.nodup_range _
    · exact hsub.nodup (by rw [hcl]; exact List.nodup_range _)
    · intro p hp
      have hm : p.2 ∈ t.starts.map Prod.snd := List.mem_map_of_mem _ hp
      have hmem := hsub.subset hm
      rw [hcl] at hmem
      have := List.mem_range.mp hmem
      omega
    · intro w
      have hd := hdebt w
      have hle := statusDebt_le_one ((t.state.workers[w]?).getD WStatus.finished)
      omega
  · intro n tr₁ tr₂ t₁ t₂ h₁ ha h₂
    rw [runPool_append, h₁] at h₂
    simp only [Option.some_bind] at h₂
    exact runPool_aborted tr₂ t₁ t₂ ha h₂

/-- C8 (counterexample to the claim as stated): in a batch of 2 filenames,
after worker 0's task fails fatally (the signal is set in state `c8T1`), its
next loop-condition evaluation still calls `fileGen.next()` — claiming
filename 1 — before seeing `signal?.aborted`; so it is false that once the
cancellation signal is set no worker claims a further task. -/
theorem c8_claim_after_abort :
    runPool (poolInit 2) c8Trace1 = some c8T1 ∧
    c8T1.state.aborted = true ∧
    runPool (poolInit 2) (c8Trace1 ++ [PoolEvent.loopCheck 0]) = some c8T2 ∧
    c8T2.claims = c8T1.claims ++ [1] := by decide

/-- Witness for C8 at the concrete schedule of the counterexample states. -/
theorem c8_worker_pool_witness :
    PoolRunProps 2 c8T2 ∧
    (c8T2.starts = c8T1.starts ∧ c8T2.state.aborted = true) :=
  ⟨c8_worker_pool.2.1 2 (c8Trace1 ++ [PoolEvent.loopCheck 0]) c8T2 (by decide),
   c8_worker_pool.2.2 2 c8Trace1 [PoolEvent.loopCheck 0] c8T1 c8T2
     (by decide) (by decide) (by decide)⟩
